import Mathlib

/-!
Verification of the hermes-agent command-execution and file-manipulation core.

This file gives a shallow embedding, in Lean 4, of the shell-mode selector,
invocation builder and process-termination helpers of
`tools/environments/shell_utils.py`, of the file-operations facade of
`tools/file_operations.py`, and of the fuzzy matcher, structured patch parser
and interrupt-handling wait loop that the facade delegates to.  Pure string
logic is embedded over `List Char`; interaction with the operating system
(environment variables, `os.path` queries, the backing file system, child
processes) is embedded as explicit oracle parameters or explicit state.
Theorems about the embedding settle the specified behaviour of each component.
-/

namespace Hermes



/-- Character lists are the working representation of Python strings. -/
abbrev Chars := List Char

/-- Boolean prefix test on character lists (Python `str.startswith`). -/
def isPre : Chars → Chars → Bool
  | [], _ => true
  | _ :: _, [] => false
  | a :: as, b :: bs => a = b && isPre as bs

/-- Scanner for `countOcc`: the `skip` counter jumps over the remainder of a
    just-matched occurrence so matches never overlap. -/
def countOccAux (old : Chars) : Chars → Nat → Nat
  | [], _ => 0
  | c :: cs, 0 =>
    if isPre old (c :: cs) then countOccAux old cs (old.length - 1) + 1
    else countOccAux old cs 0
  | _ :: cs, k + 1 => countOccAux old cs k

/-- Count of non-overlapping occurrences of `old` in `s`, scanning left to
    right (the count `str.count`/`str.replace` agree on in Python).  An empty
    `old` is treated as having zero occurrences here; callers reject it. -/
def countOcc (s old : Chars) : Nat :=
  if old = [] then 0 else countOccAux old s 0

/-- Scanner for `replaceAllOcc`: characters inside a matched occurrence are
    consumed without being emitted; at a fresh position a match emits `new`. -/
def replaceAllAux (old new : Chars) : Chars → Nat → Chars
  | [], _ => []
  | c :: cs, 0 =>
    if isPre old (c :: cs) then new ++ replaceAllAux old new cs (old.length - 1)
    else c :: replaceAllAux old new cs 0
  | _ :: cs, k + 1 => replaceAllAux old new cs k

/-- Replace every non-overlapping occurrence of `old` in `s` by `new`,
    scanning left to right (Python `str.replace(old, new)` for nonempty
    `old`; the guard returns `s` unchanged for empty `old`). -/
def replaceAllOcc (s old new : Chars) : Chars :=
  if old = [] then s else replaceAllAux old new s 0

/-- Whether `sub` occurs somewhere in `s` (Python `sub in s`). -/
def containsSub (s sub : Chars) : Bool :=
  decide (countOcc s sub ≠ 0) || decide (sub = [])

/-- Split into the POSIX notion of lines: each line keeps its trailing
    newline; a final segment without a newline is kept as-is; the empty
    string has no lines.  This is Python `readlines` and is what `sed`
    and `wc` operate on. -/
def posixLines : Chars → List Chars
  | [] => []
  | c :: cs =>
    if c = '\n' then ['\n'] :: posixLines cs
    else
      match posixLines cs with
      | [] => [[c]]
      | l :: ls => (c :: l) :: ls

/-- Python-style `str.split` on a newline: always at least one segment,
    segments do not contain the separator. -/
def splitNl : Chars → List Chars
  | [] => [[]]
  | c :: cs =>
    if c = '\n' then [] :: splitNl cs
    else
      match splitNl cs with
      | [] => [[c]]
      | l :: ls => (c :: l) :: ls

/-- Join segments with a newline separator (Python `"\n".join`). -/
def joinNl : List Chars → Chars
  | [] => []
  | [l] => l
  | l :: ls => l ++ '\n' :: joinNl ls

/-- Concatenation of a list of character lists. -/
def joinAll : List Chars → Chars
  | [] => []
  | l :: ls => l ++ joinAll ls

/-- Fueled digit writer; the fuel bounds the number of digits. -/
def natDigitsAux : Nat → Nat → Chars
  | 0, _ => []
  | fuel + 1, n =>
    if n < 10 then [Char.ofNat (48 + n)]
    else natDigitsAux fuel (n / 10) ++ [Char.ofNat (48 + n % 10)]

/-- Decimal digit characters of a natural number, most significant first. -/
def natDigits (n : Nat) : Chars := natDigitsAux (n + 1) n

/-- Lowercase an ASCII letter; other characters unchanged. -/
def asciiLower (c : Char) : Char :=
  if 'A' ≤ c ∧ c ≤ 'Z' then Char.ofNat (c.toNat + 32) else c

/-- Uppercase an ASCII letter; other characters unchanged. -/
def asciiUpper (c : Char) : Char :=
  if 'a' ≤ c ∧ c ≤ 'z' then Char.ofNat (c.toNat - 32) else c

/-- ASCII letter test (the character class `[A-Za-z]`). -/
def isAsciiLetter (c : Char) : Bool :=
  ('A' ≤ c && c ≤ 'Z') || ('a' ≤ c && c ≤ 'z')

/-- Strip trailing characters drawn from `bad` (Python `str.rstrip(bad)`). -/
def rstripChars (s : Chars) (bad : List Char) : Chars :=
  (s.reverse.dropWhile (fun c => bad.contains c)).reverse

/-! ## Shell mode selector (`tools/environments/shell_utils.py`)

The selector reads `os.name`, the `HERMES_WINDOWS_SHELL` override variable and
two cached executable probes.  These external inputs form a `ShellEnv`; the
probe caches are per-process constants, while the override is re-read on every
call, so a call sees exactly the `ShellEnv` current at call time. -/

/-- External inputs of one `get_local_shell_mode` call. -/
structure ShellEnv where
  isWindows : Bool
  overrideVal : String
  wslAvailable : Bool
  psExecutable : String
deriving DecidableEq

/-- Python whitespace characters stripped by `str.strip()`. -/
def isPyWS (c : Char) : Bool :=
  c = ' ' || c = '\t' || c = '\n' || c = '\r' || c = '\x0b' || c = '\x0c'

/-- The `.strip().lower()` normalisation applied to the override value
    (ASCII lowering; the recognised override tokens are ASCII). -/
def normalizeOv (s : Chars) : Chars :=
  (((s.dropWhile isPyWS).reverse.dropWhile isPyWS).reverse).map asciiLower

/-- Embedding of `get_local_shell_mode`: returns one of `"posix"`, `"wsl"`,
    `"powershell"`, `"cmd"`.  A truthy `_powershell_executable()` is a
    nonempty cached discovery result. -/
def get_local_shell_mode (env : ShellEnv) : String :=
  if env.isWindows = false then "posix"
  else
    let ov := normalizeOv env.overrideVal.data
    if ov = "wsl".data then
      if env.wslAvailable then "wsl"
      else if env.psExecutable ≠ "" then "powershell" else "cmd"
    else if ov = "powershell".data ∨ ov = "pwsh".data then
      if env.psExecutable ≠ "" then "powershell" else "cmd"
    else if ov = "cmd".data ∨ ov = "cmd.exe".data then "cmd"
    else
      if env.wslAvailable then "wsl"
      else if env.psExecutable ≠ "" then "powershell"
      else "cmd"

/-- The module-level `_last_logged_mode` guard plus the lines logged so far
    (a log entry is recorded by the resulting mode it announces). -/
structure ModeLogState where
  lastLogged : Option String
  log : List String
deriving DecidableEq

/-- One call of `get_local_shell_mode` together with its logging side
    effect: the decision is logged iff it differs from the last logged one. -/
def modeCall (env : ShellEnv) (st : ModeLogState) : String × ModeLogState :=
  let mode := get_local_shell_mode env
  if st.lastLogged ≠ some mode then
    (mode, ⟨some mode, st.log ++ [mode]⟩)
  else
    (mode, st)

/-- A sequence of selector calls, threading the logging state. -/
def runModeCalls : List ShellEnv → ModeLogState → ModeLogState
  | [], st => st
  | e :: es, st => runModeCalls es (modeCall e st).2

/-- Pure form of the log produced from a guard value and a mode sequence. -/
def modeLogRun : Option String → List String → List String
  | _, [] => []
  | last, m :: ms =>
    if last ≠ some m then m :: modeLogRun (some m) ms else modeLogRun last ms

/-! ## Path translation and quoting helpers -/

/-- Replace backslashes by forward slashes (`path.replace("\\", "/")`). -/
def slashify (c : Char) : Char := if c = '\\' then '/' else c

/-- Replace forward slashes by backslashes (`path.replace("/", "\\")`). -/
def backslashify (c : Char) : Char := if c = '/' then '\\' else c

/-- Embedding of `to_wsl_path`: convert `C:\path` style to `/mnt/c/path`. -/
def to_wsl_path (p : Chars) : Chars :=
  if p = [] then p
  else
    let normalized := p.map slashify
    if isPre "/mnt/".data normalized then normalized
    else
      match p with
      | c :: ':' :: rest =>
        if isAsciiLetter c then
          let r := (rest.map slashify).dropWhile (fun x => x = '/')
          if r = [] then "/mnt/".data ++ [asciiLower c]
          else "/mnt/".data ++ [asciiLower c] ++ '/' :: r
        else normalized
      | _ => normalized

/-- Embedding of `to_windows_path`: convert `/mnt/c/path` style to `C:\path`. -/
def to_windows_path (p : Chars) : Chars :=
  if p = [] then p
  else
    match p.map slashify with
    | '/' :: 'm' :: 'n' :: 't' :: '/' :: d :: rest =>
      if isAsciiLetter d then
        match rest with
        | [] => [asciiUpper d, ':', '\\']
        | '/' :: rest2 =>
          let r := rest2.map backslashify
          if r = [] then [asciiUpper d, ':', '\\']
          else [asciiUpper d, ':', '\\'] ++ r
        | _ => p
      else p
    | _ => p

/-- Whether a normalised path matches the drive-root regex `^[A-Za-z]:\\*$`. -/
def isDriveRoot : Chars → Bool
  | c :: ':' :: rest => isAsciiLetter c && rest.all (fun x => x = '\\')
  | _ => false

/-- Embedding of `_windows_path_safe_for_quotes`: strip trailing separators
    so the path cannot escape a closing quote, keeping drive roots intact. -/
def windowsPathSafeForQuotes (p : Chars) : Chars :=
  if p = [] then p
  else
    let normalized := p.map backslashify
    if isDriveRoot normalized then normalized.take 2 ++ ['\\']
    else
      let s := rstripChars p ['\\', '/']
      if s ≠ [] then s else p

/-- Characters `shlex.quote` leaves unquoted: ASCII letters, digits, and
    the punctuation `_ @ % + = : , . - slash`. -/
def shlexSafeChar (c : Char) : Bool :=
  c.isAlphanum || c = '_' || c = '@' || c = '%' || c = '+' || c = '=' ||
    c = ':' || c = ',' || c = '.' || c = '/' || c = '-'

/-- Embedding of `shlex.quote`. -/
def shlexQuoteC (s : Chars) : Chars :=
  if s = [] then ['\'', '\'']
  else if s.all shlexSafeChar then s
  else '\'' :: replaceAllOcc s ['\''] ['\'', '"', '\'', '"', '\''] ++ ['\'']

/-! ## Invocation builder (`build_local_subprocess_invocation`) -/

/-- Oracle for the `os.path` queries used by `_windows_safe_cwd` and the
    working-directory existence test: `isdir`, `abspath`, `expanduser`, the
    user home directory and the interpreter working directory. -/
structure WinFsOracle where
  isdir : String → Bool
  absOf : String → String
  expandUser : String → String
  homeDir : String
  getcwdDir : String

/-- Fallback chain of `_windows_safe_cwd` once the requested directory is
    rejected: user home, then the known-good roots, then `os.getcwd()`. -/
def safeCwdFallback (o : WinFsOracle) : String :=
  if o.homeDir ≠ "" ∧ o.isdir o.homeDir then o.homeDir
  else if o.isdir "C:\\" then o.absOf "C:\\"
  else if o.isdir "C:\\Users" then o.absOf "C:\\Users"
  else if o.isdir "." then o.absOf "."
  else o.getcwdDir

/-- Embedding of `_windows_safe_cwd`: always returns a directory the oracle
    accepts as existing (or the last-resort working directory). -/
def windowsSafeCwd (o : WinFsOracle) (workDir : Option String) : String :=
  match workDir with
  | some wd =>
    if wd ≠ "" then
      let resolved := o.absOf (o.expandUser wd)
      if o.isdir resolved then resolved else safeCwdFallback o
    else safeCwdFallback o
  | none => safeCwdFallback o

/-- External inputs of `build_local_subprocess_invocation`: the selector
    inputs plus the cached executables, `COMSPEC` resolution and path oracle. -/
structure BuildEnv where
  shellEnv : ShellEnv
  wslExecutable : String
  comspec : String
  fsOracle : WinFsOracle

/-- The first component of a `subprocess.Popen` invocation: either a single
    command string (to be run through a shell) or an argument vector. -/
inductive PopenArgs where
  | single (s : String)
  | argv (v : List String)
deriving DecidableEq

/-- The launch options the builder sets: the run-through-shell flag, an
    explicit working directory (`none` for absent or `None`), whether a POSIX
    process group is requested (`preexec_fn=os.setsid`) and whether the
    Windows `CREATE_NEW_PROCESS_GROUP` creation flag is requested. -/
structure PopenOpts where
  shell : Bool
  cwd : Option String
  processGroup : Bool
  newProcessGroupFlag : Bool
deriving DecidableEq

/-- A single apostrophe as a string. -/
def squote : String := ⟨['\'']⟩

/-- The PowerShell `-LiteralPath` argument: safe-quoted Windows path with
    apostrophes doubled (`.replace("'", "''")`). -/
def psDirOf (wd : String) : String :=
  ⟨replaceAllOcc (windowsPathSafeForQuotes (to_windows_path wd.data))
    ['\''] ['\'', '\'']⟩

/-- The `Set-Location -LiteralPath '<dir>'; <command>` script. -/
def psCommandFor (env : BuildEnv) (command : String) (workDir : Option String) :
    String :=
  match workDir with
  | some wd =>
    if wd ≠ "" &&
        env.fsOracle.isdir (env.fsOracle.absOf (env.fsOracle.expandUser wd)) then
      "Set-Location -LiteralPath " ++ squote ++ psDirOf wd ++ squote ++ "; " ++
        command
    else command
  | none => command

/-- The `cd <quoted-wsl-path> && <command>` wrapper for the WSL mode. -/
def wslWrapped (command : String) (workDir : Option String) : String :=
  match workDir with
  | some wd =>
    if wd ≠ "" then
      "cd " ++ (⟨shlexQuoteC (to_wsl_path wd.data)⟩ : String) ++ " && " ++ command
    else command
  | none => command

/-- Embedding of `build_local_subprocess_invocation`: produce the Popen
    arguments, launch options and the mode that chose them. -/
def build_local_subprocess_invocation (env : BuildEnv) (command : String)
    (workDir : Option String) : PopenArgs × PopenOpts × String :=
  let mode := get_local_shell_mode env.shellEnv
  if mode = "posix" then
    (.single command, ⟨true, workDir, true, false⟩, mode)
  else if mode = "wsl" then
    (.argv [env.wslExecutable, "-e", "bash", "-lc", wslWrapped command workDir],
      ⟨false, none, false, true⟩, mode)
  else
    let safeCwd :=
      if env.shellEnv.isWindows then some (windowsSafeCwd env.fsOracle workDir)
      else none
    if mode = "powershell" then
      (.argv [env.shellEnv.psExecutable, "-NoLogo", "-NoProfile",
          "-NonInteractive", "-ExecutionPolicy", "Bypass", "-Command",
          psCommandFor env command workDir],
        ⟨false, safeCwd, false, true⟩, mode)
    else
      (.argv [env.comspec, "/d", "/s", "/c", command],
        ⟨false, safeCwd, false, true⟩, mode)

/-! ## Process-tree termination (`terminate_process_tree`) and the
interrupt escalation of the local execution wait loop -/

/-- Abstract state of a launched child process and its tree: whether any
    process of the tree is still alive, and whether the tree ignores the
    graceful termination signal (e.g. traps `SIGTERM`). -/
structure ProcTree where
  alive : Bool
  ignoresTerm : Bool
deriving DecidableEq

/-- Embedding of `terminate_process_tree` on the POSIX side: a no-op on a
    finished process; `force=false` delivers `SIGTERM` to the process group,
    which a trapping tree survives; `force=true` delivers the uncatchable
    `SIGKILL`.  (The Windows side enumerates the tree via `taskkill /T`
    with the same graceful/forced distinction.) -/
def terminate_process_tree (p : ProcTree) (force : Bool) : ProcTree :=
  if p.alive = false then p
  else if force then { p with alive := false }
  else { p with alive := p.ignoresTerm }

/-- Result of one command execution: captured output and exit code. -/
structure ExecutionResult where
  output : String
  returncode : Int
deriving DecidableEq

/-- The note the wait loop appends to the captured output when a run is cut
    short by an interrupt. -/
def interruptNote : String := "\n[Command interrupted by user]"

/-- Modelled from the spec: the interrupt branch of the local execution wait
    loop (`tools/environments/local.py`, not in the source tree; §4.3 of the
    spec and `tests/tools/test_interrupt.py`).  On an interrupt observed while
    the child is alive the loop sends the graceful signal to the whole tree
    via `terminate_process_tree`, waits a bounded grace period (order of one
    second, abstracted here to the single escalation step), force-kills the
    tree if it is still alive, and reports exit status 130 with an
    interruption note appended to the output captured so far. -/
def interruptEscalation (p : ProcTree) (captured : String) :
    ProcTree × ExecutionResult :=
  let afterTerm := terminate_process_tree p false
  let final :=
    if afterTerm.alive then terminate_process_tree afterTerm true else afterTerm
  (final, ⟨captured ++ interruptNote, 130⟩)

/-! ## Fuzzy matcher (`tools/fuzzy_match.py`, modelled from the spec)

The module itself is not in the source tree; only its tests are.  The model
below follows §4.6 of the spec and `tests/tools/test_fuzzy_match.py`: reject
empty or no-op requests, then try an exact substring pass, a pass with runs
of interior spaces collapsed, and a pass ignoring leading indentation
line-by-line; the first pass with at least one occurrence wins; more than one
occurrence without `replace_all` is an ambiguity error naming the count. -/

/-- Collapse every run of consecutive spaces to a single space. -/
def collapseSpaces : Chars → Chars
  | [] => []
  | [c] => [c]
  | c :: d :: rest =>
    if c = ' ' && d = ' ' then collapseSpaces (d :: rest)
    else c :: collapseSpaces (d :: rest)

/-- Drop leading indentation (spaces and tabs) from a line. -/
def stripIndent (l : Chars) : Chars :=
  l.dropWhile (fun c => c = ' ' || c = '\t')

/-- Whether the lines `ol`, each compared through the normaliser `f`, are an
    initial block of the lines `cl`. -/
def blockIsPre (f : Chars → Chars) : List Chars → List Chars → Bool
  | [], _ => true
  | _ :: _, [] => false
  | o :: os, c :: cs => f o = f c && blockIsPre f os cs

/-- Scanner for `blockCount`, skipping over the rest of a matched block. -/
def blockCountAux (f : Chars → Chars) (ol : List Chars) :
    List Chars → Nat → Nat
  | [], _ => 0
  | c :: cs, 0 =>
    if blockIsPre f ol (c :: cs) then blockCountAux f ol cs (ol.length - 1) + 1
    else blockCountAux f ol cs 0
  | _ :: cs, k + 1 => blockCountAux f ol cs k

/-- Count of non-overlapping block matches of `ol` (through `f`) in `cl`,
    scanning top to bottom. -/
def blockCount (f : Chars → Chars) (ol : List Chars) (cl : List Chars) : Nat :=
  if ol = [] then 0 else blockCountAux f ol cl 0

/-- Scanner for `blockReplace`: lines of a matched block are consumed, the
    replacement lines are spliced in at the match position. -/
def blockReplaceAux (f : Chars → Chars) (ol nl : List Chars) :
    List Chars → Nat → List Chars
  | [], _ => []
  | c :: cs, 0 =>
    if blockIsPre f ol (c :: cs) then nl ++ blockReplaceAux f ol nl cs (ol.length - 1)
    else c :: blockReplaceAux f ol nl cs 0
  | _ :: cs, k + 1 => blockReplaceAux f ol nl cs k

/-- Replace every non-overlapping block match of `ol` (through `f`) in `cl`
    by the lines `nl`, scanning top to bottom. -/
def blockReplace (f : Chars → Chars) (ol nl : List Chars) (cl : List Chars) :
    List Chars :=
  if ol = [] then cl else blockReplaceAux f ol nl cl 0

/-- The three fallback match passes, in their fixed order. -/
inductive MatchPass where
  | exact
  | wsCollapsed
  | indentNorm
deriving DecidableEq

/-- Occurrence count of `old` in `content` under a given pass. -/
def passCount : MatchPass → Chars → Chars → Nat
  | .exact, content, old => countOcc content old
  | .wsCollapsed, content, old =>
    blockCount collapseSpaces (splitNl old) (splitNl content)
  | .indentNorm, content, old =>
    blockCount stripIndent (splitNl old) (splitNl content)

/-- Replace every occurrence found by a given pass. -/
def passReplace : MatchPass → Chars → Chars → Chars → Chars
  | .exact, content, old, new => replaceAllOcc content old new
  | .wsCollapsed, content, old, new =>
    joinNl (blockReplace collapseSpaces (splitNl old) (splitNl new)
      (splitNl content))
  | .indentNorm, content, old, new =>
    joinNl (blockReplace stripIndent (splitNl old) (splitNl new)
      (splitNl content))

/-- The first pass that yields at least one occurrence, with its count. -/
def firstHit (content old : Chars) : Option (MatchPass × Nat) :=
  if passCount .exact content old ≠ 0 then
    some (.exact, passCount .exact content old)
  else if passCount .wsCollapsed content old ≠ 0 then
    some (.wsCollapsed, passCount .wsCollapsed content old)
  else if passCount .indentNorm content old ≠ 0 then
    some (.indentNorm, passCount .indentNorm content old)
  else none

/-- Error text for an empty `old_string`. -/
def emptyOldErr : Chars := "old_string is empty; provide the text to replace".data

/-- Error text for identical `old_string` and `new_string`. -/
def identicalErr : Chars :=
  "old_string and new_string are identical; no changes to make".data

/-- Error text when no pass finds an occurrence. -/
def noMatchErr : Chars := "No match found for old_string in the file".data

/-- Ambiguity error naming the occurrence count, e.g. `Found 2 matches ...`. -/
def foundMatchesErr (n : Nat) : Chars :=
  "Found ".data ++ natDigits n ++ " matches".data ++
    " of old_string; set replace_all to true to replace every occurrence".data

/-- Modelled from the spec: `fuzzy_find_and_replace(content, old, new,
    replace_all) -> (new_content, match_count, error)` of the absent
    `tools/fuzzy_match.py`, per §4.6 of the spec and its tests. -/
def fuzzy_find_and_replace (content old new : Chars) (replaceAll : Bool) :
    Chars × Nat × Option Chars :=
  if old = [] then (content, 0, some emptyOldErr)
  else if old = new then (content, 0, some identicalErr)
  else
    match firstHit content old with
    | none => (content, 0, some noMatchErr)
    | some (p, n) =>
      if 1 < n ∧ replaceAll = false then (content, 0, some (foundMatchesErr n))
      else (passReplace p content old new, n, none)

/-! ## Structured patch parser (`tools/patch_parser.py`, modelled from the
spec)

The module itself is not in the source tree; only its tests and its caller
`ShellFileOperations.patch_v4a` are.  The model follows the grammar of §4.7
of the spec and `tests/tools/test_patch_parser.py`: a line-oriented document
with optional `Begin`/`End` markers, four operation markers, `@@`-delimited
hunk headers, and hunk lines tagged by a leading space, `-` or `+`. -/

/-- The four structured patch operation kinds. -/
inductive OperationType where
  | update
  | add
  | delete
  | move
deriving DecidableEq

/-- One hunk line: its tag character (space, `-` or `+`) and its content. -/
structure HunkLine where
  tag : Char
  content : Chars
deriving DecidableEq

/-- One hunk: an optional context hint and its tagged lines in order. -/
structure Hunk where
  context_hint : Chars
  lines : List HunkLine
deriving DecidableEq

/-- One parsed file operation. -/
structure PatchOperation where
  operation : OperationType
  file_path : Chars
  new_path : Option Chars
  hunks : List Hunk
deriving DecidableEq

def starsMark : Chars := "***".data

def beginMark : Chars := "*** Begin Patch".data

def endMark : Chars := "*** End Patch".data

def updateMark : Chars := "*** Update File: ".data

def addMark : Chars := "*** Add File: ".data

def deleteMark : Chars := "*** Delete File: ".data

def moveMark : Chars := "*** Move File: ".data

def atsMark : Chars := "@@".data

def arrowMark : Chars := " -> ".data

/-- Split at the first occurrence of `\" -> \"` (the move path separator). -/
def splitArrow : Chars → Option (Chars × Chars)
  | [] => none
  | c :: cs =>
    if isPre arrowMark (c :: cs) then some ([], (c :: cs).drop arrowMark.length)
    else
      match splitArrow cs with
      | some (a, b) => some (c :: a, b)
      | none => none

/-- Context hint of a `@@ hint @@` header line: drop the leading `@@`,
    surrounding spaces and a trailing `@@`. -/
def hintOf (l : Chars) : Chars :=
  let core := (l.drop atsMark.length).dropWhile (fun c => c = ' ')
  let core := (core.reverse.dropWhile (fun c => c = ' ')).reverse
  if isPre atsMark core.reverse then
    ((core.reverse.drop atsMark.length).dropWhile (fun c => c = ' ')).reverse
  else core

/-- Append an in-progress hunk, if any. -/
def closeHunk (acc : List Hunk) : Option Hunk → List Hunk
  | some h => acc ++ [h]
  | none => acc

/-- An operation under construction while its body lines are being read:
    an `Update File` carries the hunks closed so far and the open hunk, an
    `Add File` carries the added lines read so far. -/
inductive Pending where
  | forUpdate (path : Chars) (done : List Hunk) (cur : Option Hunk)
  | forAdd (path : Chars) (hls : List HunkLine)
deriving DecidableEq

/-- Close an operation under construction into its parsed form. -/
def flushPending : Option Pending → List PatchOperation
  | none => []
  | some (.forUpdate p done cur) => [⟨.update, p, none, closeHunk done cur⟩]
  | some (.forAdd p hls) => [⟨.add, p, none, [⟨[], hls⟩]⟩]

def parseErrMalformedHunk : Chars := "malformed patch line".data

def parseErrMalformedAdd : Chars :=
  "Add File body must contain only added lines".data

def parseErrMalformedMove : Chars :=
  "Move File requires an old -> new path pair".data

def parseErrUnknownMark : Chars := "unrecognized patch marker line".data

def parseErrOutsideOp : Chars := "patch line outside of a file operation".data

/-- Line-by-line scanner over the document: operation markers flush the
    pending operation and open the next one, `@@` headers start a new hunk
    of a pending update, tagged lines extend the pending operation, blank
    lines and the `Begin`/`End` markers are skipped, anything else is a
    parse error (reported with the operations accumulated so far). -/
def parseLoop : List Chars → Option Pending → List PatchOperation →
    List PatchOperation × Option Chars
  | [], pend, acc => (acc ++ flushPending pend, none)
  | l :: ls, pend, acc =>
    if l = [] then parseLoop ls pend acc
    else if isPre beginMark l then parseLoop ls pend acc
    else if isPre endMark l then parseLoop ls pend acc
    else if isPre updateMark l then
      parseLoop ls (some (.forUpdate (l.drop updateMark.length) [] none))
        (acc ++ flushPending pend)
    else if isPre addMark l then
      parseLoop ls (some (.forAdd (l.drop addMark.length) []))
        (acc ++ flushPending pend)
    else if isPre deleteMark l then
      parseLoop ls none
        (acc ++ flushPending pend ++ [⟨.delete, l.drop deleteMark.length, none, []⟩])
    else if isPre moveMark l then
      match splitArrow (l.drop moveMark.length) with
      | some (a, b) =>
        parseLoop ls none (acc ++ flushPending pend ++ [⟨.move, a, some b, []⟩])
      | none => (acc, some parseErrMalformedMove)
    else if isPre starsMark l then (acc, some parseErrUnknownMark)
    else if isPre atsMark l then
      match pend with
      | some (.forUpdate p done cur) =>
        parseLoop ls
          (some (.forUpdate p (closeHunk done cur) (some ⟨hintOf l, []⟩))) acc
      | _ => (acc, some parseErrOutsideOp)
    else
      match l with
      | [] => (acc, none)
      | c :: rest =>
        if c = ' ' || c = '-' || c = '+' then
          match pend with
          | some (.forUpdate p done (some h)) =>
            parseLoop ls
              (some (.forUpdate p done
                (some ⟨h.context_hint, h.lines ++ [⟨c, rest⟩]⟩))) acc
          | some (.forUpdate p done none) =>
            parseLoop ls (some (.forUpdate p done (some ⟨[], [⟨c, rest⟩]⟩))) acc
          | some (.forAdd p hls) =>
            if c = '+' then
              parseLoop ls (some (.forAdd p (hls ++ [⟨'+', rest⟩]))) acc
            else (acc, some parseErrMalformedAdd)
          | none => (acc, some parseErrOutsideOp)
        else (acc, some parseErrMalformedHunk)

/-- Parse a patch document given as its list of lines. -/
def parse_v4a_lines (lines : List Chars) : List PatchOperation × Option Chars :=
  parseLoop lines none []

/-- Modelled from the spec: `parse_v4a_patch(patch_content) ->
    (operations, error)` of the absent `tools/patch_parser.py`, per §4.7 of
    the spec and its tests. -/
def parse_v4a_patch (s : String) : List PatchOperation × Option Chars :=
  parse_v4a_lines (splitNl s.data)

/-- A patch document, as its line list, holding an `Add File`, a
    `Delete File` and an `Update File` operation in sequence, with
    arbitrary operand paths. -/
def multiOpLines (p1 p2 p3 : Chars) : List Chars :=
  [beginMark,
   addMark ++ p1, '+' :: "content_a".data,
   deleteMark ++ p2,
   updateMark ++ p3, ' ' :: "keep".data, '-' :: "remove".data,
     '+' :: "add".data,
   endMark]

/-! ## File operations facade (`tools/file_operations.py`)

The facade runs over a terminal backend.  The backing file system is a flat
map from paths to text contents; the shell commands the POSIX path issues
(`stat`, `head -c`, `sed -n`, `wc -l`, `cat`, `cat >`) are embedded by their
GNU-tool semantics over that map.  `difflib.unified_diff` and the lint run
are downstream library/shell calls and enter as oracle parameters. -/

/-- The backing file system: path to text content, newest binding first. -/
def Fs := List (String × Chars)

/-- Look up a path (first binding wins). -/
def fsLookup (fs : Fs) (p : String) : Option Chars :=
  (fs.find? (fun e => e.1 = p)).map (·.2)

/-- Write a path (shadowing any previous binding). -/
def fsSet (fs : Fs) (p : String) (c : Chars) : Fs := (p, c) :: fs

/-- Result record of `read_file` (mirrors the `ReadResult` dataclass). -/
structure ReadResult where
  content : Chars := []
  total_lines : Nat := 0
  file_size : Nat := 0
  truncated : Bool := false
  hint : Option Chars := none
  is_binary : Bool := false
  is_image : Bool := false
  base64_content : Option Chars := none
  mime_type : Option Chars := none
  dimensions : Option Chars := none
  error : Option Chars := none
  similar_files : List String := []
deriving DecidableEq

/-- Result record of `write_file` (mirrors the `WriteResult` dataclass). -/
structure WriteResult where
  bytes_written : Nat := 0
  dirs_created : Bool := false
  error : Option Chars := none
  warning : Option Chars := none
deriving DecidableEq

/-- Rendered lint outcome (the `LintResult.to_dict()` payload). -/
structure LintNote where
  status : Chars
  message : Chars
deriving DecidableEq

/-- Result record of the patch operations (mirrors `PatchResult`). -/
structure PatchResult where
  success : Bool := false
  diff : Chars := []
  files_modified : List String := []
  files_created : List String := []
  files_deleted : List String := []
  lint : Option LintNote := none
  error : Option Chars := none
deriving DecidableEq

/-- A single content search match (mirrors `SearchMatch`). -/
structure SearchMatch where
  path : String
  line_number : Nat
  content : Chars
deriving DecidableEq

/-- Result record of `search` (mirrors `SearchResult`; `matchList` is the
    source's `matches` field, renamed because `matches` is a Lean keyword;
    `counts` is the per-file count map of `count` mode). -/
structure SearchResult where
  matchList : List SearchMatch := []
  files : List String := []
  counts : List (String × Nat) := []
  total_count : Nat := 0
  truncated : Bool := false
  error : Option Chars := none
deriving DecidableEq

def MAX_LINES : Nat := 2000

def MAX_LINE_LENGTH : Nat := 2000

def MAX_FILE_SIZE : Nat := 51200

/-- The binary-extension fast path allowlist. -/
def BINARY_EXTENSIONS : List String :=
  [".png", ".jpg", ".jpeg", ".gif", ".webp", ".bmp", ".ico", ".tiff", ".tif",
   ".svg",
   ".mp3", ".mp4", ".wav", ".avi", ".mov", ".mkv", ".flac", ".ogg", ".webm",
   ".zip", ".tar", ".gz", ".bz2", ".xz", ".7z", ".rar",
   ".pdf", ".doc", ".docx", ".xls", ".xlsx", ".ppt", ".pptx",
   ".exe", ".dll", ".so", ".dylib", ".o", ".a", ".pyc", ".pyo", ".class",
   ".wasm", ".bin",
   ".ttf", ".otf", ".woff", ".woff2", ".eot",
   ".db", ".sqlite", ".sqlite3"]

/-- Image extensions (returned with a vision redirect, never inlined). -/
def IMAGE_EXTENSIONS : List String :=
  [".png", ".jpg", ".jpeg", ".gif", ".webp", ".bmp", ".ico"]

/-- Basename of a path (after the last separator of either kind). -/
def baseNameOf (p : Chars) : Chars :=
  (p.reverse.takeWhile (fun c => c ≠ '/' && c ≠ '\\')).reverse

/-- Lowercased extension of a path, per `os.path.splitext(...)[1].lower()`:
    the suffix from the last dot of the basename, empty when the only dots
    are the basename's leading dots. -/
def extLower (p : String) : String :=
  let base := baseNameOf p.data
  let revExt := base.reverse.takeWhile (fun c => c ≠ '.')
  if revExt.length = base.length then ""
  else
    let stem := base.take (base.length - revExt.length - 1)
    if stem.all (fun c => c = '.') then ""
    else ⟨('.' :: revExt.reverse).map asciiLower⟩

/-- Embedding of `_is_image`. -/
def isImagePath (p : String) : Bool := IMAGE_EXTENSIONS.contains (extLower p)

/-- Embedding of `_is_likely_binary`: extension allowlist first, then the
    sampled-content classification (more than 30 percent of the first 1000
    sample characters non-printable).  The Python comparison divides floats;
    the model compares exactly, which agrees away from the 0.30 boundary. -/
def isLikelyBinary (path : String) (sample : Chars) : Bool :=
  if BINARY_EXTENSIONS.contains (extLower path) then true
  else
    match sample with
    | [] => false
    | _ =>
      let looked := sample.take 1000
      let np := (looked.filter
        (fun c => c.toNat < 32 && c ≠ '\n' && c ≠ '\r' && c ≠ '\t')).length
      decide (10 * np > 3 * min sample.length 1000)

/-- Width-6 right-aligned decimal rendering (the `f"{i:6d}"` field). -/
def pad6 (n : Nat) : Chars :=
  List.replicate (6 - (natDigits n).length) ' ' ++ natDigits n

/-- One numbered line of `_add_line_numbers`, with over-long lines cut at
    the per-line cap and marked. -/
def numberLine (i : Nat) (l : Chars) : Chars :=
  pad6 i ++ '|' ::
    (if decide (l.length > MAX_LINE_LENGTH) then
      l.take MAX_LINE_LENGTH ++ "... [truncated]".data
    else l)

/-- Number the lines starting at a given 1-based index. -/
def numberFrom (i : Nat) : List Chars → List Chars
  | [] => []
  | l :: ls => numberLine i l :: numberFrom (i + 1) ls

/-- Embedding of `_add_line_numbers(content, start_line)`. -/
def addLineNumbers (content : Chars) (start : Nat) : Chars :=
  joinNl (numberFrom start (splitNl content))

/-- Embedding of `_expand_path` on the POSIX side for the cases the claims
    exercise: a leading `~`/`~/` expands through the backend home directory;
    other paths pass through unchanged.  (The `~user` form delegates to the
    backend shell and is not modelled.) -/
def expandPathPosix (home : String) (p : String) : String :=
  if isPre "~".data p.data then
    if p = "~" then home
    else if isPre "~/".data p.data then home ++ (⟨p.data.drop 1⟩ : String)
    else p
  else p

/-- Dirname of a path: everything before the last slash, empty if none. -/
def dirNamePosix (p : Chars) : Chars :=
  if p.contains '/' then (p.reverse.dropWhile (fun c => c ≠ '/')).drop 1 |>.reverse
  else []

/-- The image redirect hint `read_file` returns instead of image bytes. -/
def imageRedirectHint : Chars :=
  ("Image file detected. Automatically redirected to vision_analyze tool. " ++
   "Use vision_analyze with this file path to inspect the image contents.").data

/-- The binary-content error text of `read_file`. -/
def binaryFileErr : Chars :=
  ("Binary file - cannot display as text. " ++
   "Use appropriate tools to handle this file type.").data

/-- The continue-reading hint of a truncated read. -/
def mkContinueHint (nextOffset low high total : Nat) : Chars :=
  "Use offset=".data ++ natDigits nextOffset ++
    " to continue reading (showing ".data ++ natDigits low ++ "-".data ++
    natDigits high ++ " of ".data ++ natDigits total ++ " lines)".data

/-- Embedding of `read_file` on the shell-dispatch (POSIX) path: `stat` for
    existence and size, the image-extension redirect, a `head -c 1000`
    sample classified by `_is_likely_binary`, then `sed -n '<o>,<e>p'`
    pagination, `wc -l` for the line total, and line numbering.  The
    not-found similar-file suggestion scan (an `ls` plus a character-overlap
    heuristic) is not modelled; the not-found case returns its error. -/
def read_file (fs : Fs) (home : String) (path : String) (offset limit : Nat) :
    ReadResult :=
  let path := expandPathPosix home path
  let limit := min limit MAX_LINES
  match fsLookup fs path with
  | none => { error := some ("File not found: ".data ++ path.data) }
  | some content =>
    let file_size := content.length
    if isImagePath path then
      { is_image := true, is_binary := true, file_size := file_size,
        hint := some imageRedirectHint }
    else if isLikelyBinary path (content.take 1000) then
      { is_binary := true, file_size := file_size,
        error := some binaryFileErr }
    else
      let endLine := offset + limit - 1
      let sedOut := joinAll (((posixLines content).take endLine).drop (offset - 1))
      let total_lines := content.count '\n'
      let truncated := decide (total_lines > endLine)
      { content := addLineNumbers sedOut offset,
        total_lines := total_lines,
        file_size := file_size,
        truncated := truncated,
        hint := if truncated then
            some (mkContinueHint (endLine + 1) offset endLine total_lines)
          else none }

/-- Embedding of `write_file` on the shell-dispatch path: `mkdir -p` for the
    parent (no effect on the flat file map), content streamed through stdin
    into `cat > <path>`, then `stat` for the byte count. -/
def write_file (fs : Fs) (home : String) (path : String) (content : Chars) :
    WriteResult × Fs :=
  let path := expandPathPosix home path
  let dirs_created := decide (dirNamePosix path.data ≠ [])
  let fs := fsSet fs path content
  ({ bytes_written := content.length, dirs_created := dirs_created }, fs)

/-- Downstream collaborators of `patch_replace` entered as oracles: the
    `difflib.unified_diff` rendering and the `_check_lint` shell run. -/
structure FacadeOracles where
  diffOf : Chars → Chars → String → Chars
  lintOf : String → LintNote

/-- Embedding of `patch_replace`: read the current content via `cat`,
    delegate to the fuzzy matcher, fail (leaving the file untouched) on a
    matcher error or zero matches, otherwise write the new content back and
    report the diff, the modified file and the lint result. -/
def patch_replace (oc : FacadeOracles) (fs : Fs) (home : String)
    (path : String) (old new : Chars) (replaceAll : Bool) :
    PatchResult × Fs :=
  let path := expandPathPosix home path
  match fsLookup fs path with
  | none => ({ error := some ("Failed to read file: ".data ++ path.data) }, fs)
  | some content =>
    let r := fuzzy_find_and_replace content old new replaceAll
    match r.2.2 with
    | some e => ({ error := some e }, fs)
    | none =>
      if r.2.1 = 0 then
        ({ error := some ("Could not find match for old_string in ".data ++
            path.data) }, fs)
      else
        let w := write_file fs home path r.1
        match w.1.error with
        | some we =>
          ({ error := some ("Failed to write changes: ".data ++ we) }, w.2)
        | none =>
          ({ success := true,
             diff := oc.diffOf content r.1 path,
             files_modified := [path],
             lint := some (oc.lintOf path) }, w.2)

/-! ## Windows-native implementations (`_read_file_windows`,
`_search_windows`) and the POSIX `find`-backed file search

The Windows-native code replaces shell dispatch with direct OS calls.  The
walked file list, `fnmatch` name matching, the compiled regex's per-line
search and `_resolve_windows_path` are the OS/stdlib boundary and enter as
explicit data and oracle functions. -/

/-- One file visible to the Windows-native implementations: its resolved
    path, its basename (what `fnmatch` sees), its modification time and its
    decoded text content. -/
structure WinFile where
  path : String
  name : String
  mtime : Nat
  text : Chars
deriving DecidableEq

/-- External inputs of `_read_file_windows`: the readable files, the known
    directories with their listings, and the `_resolve_windows_path`
    resolution (itself built on `os.path` queries). -/
structure WinEnv where
  wfiles : List (String × Chars)
  wdirs : List (String × List String)
  resolveFn : String → String

/-- Embedding of `_read_file_windows`: resolve the path, report a missing
    file or a directory, otherwise read all lines once and slice them for
    pagination.  (Note: unlike the shell-dispatch path, this native path
    performs no image-extension or binary-content check.)  The not-found
    similar-file scan is not modelled; the not-found case returns its
    error. -/
def read_file_windows (env : WinEnv) (path : String) (offset limit : Nat) :
    ReadResult :=
  let path := env.resolveFn path
  match (env.wdirs.find? (fun e => e.1 = path)).map (·.2) with
  | some entries =>
    let sample := entries.take 20
    { error := some "Path is a directory, not a file.".data,
      hint := if sample.isEmpty then none
        else some ("Directory contents:".data ++
          joinAll (sample.map (fun n => '\n' :: '-' :: ' ' :: n.data))),
      similar_files := sample.map (fun n => path ++ "/" ++ n) }
  | none =>
    match fsLookup env.wfiles path with
    | none => { error := some ("File not found: ".data ++ path.data) }
    | some content =>
      let file_size := content.length
      let limit := min limit MAX_LINES
      let offset := max offset 1
      let lines := posixLines content
      let total_lines := lines.length
      let start := offset - 1
      let endIdx := start + limit
      let page := if start < total_lines then (lines.drop start).take limit
        else []
      let truncated := decide (endIdx < total_lines)
      { content := addLineNumbers (joinAll page) offset,
        total_lines := total_lines,
        file_size := file_size,
        truncated := truncated,
        hint := if truncated then
            some (mkContinueHint (endIdx + 1) offset endIdx total_lines)
          else none }

/-- Whether a pattern contains a glob metacharacter. -/
def hasGlobChar (p : String) : Bool :=
  p.data.any (fun c => c = '*' || c = '?' || c = '[' || c = ']')

/-- Embedding of the `files` target of `_search_windows`: plain tokens are
    wrapped as `*token*`, names are matched by the `fnmatch` oracle, matches
    are ordered newest-modified-first, and `offset`/`limit` slice after the
    total is known. -/
def searchWindowsFiles (files : List WinFile)
    (fnmatchFn : String → String → Bool) (pattern : String)
    (limit offset : Nat) : SearchResult :=
  let searchPattern := if hasGlobChar pattern then pattern
    else "*" ++ pattern ++ "*"
  let found := files.filter (fun f => fnmatchFn f.name searchPattern)
  let sorted := found.mergeSort (fun a b => a.mtime ≥ b.mtime)
  let paths := sorted.map (·.path)
  let total := paths.length
  { files := (paths.drop offset).take limit,
    total_count := total,
    truncated := decide (total > offset + limit) }

/-- Lines of a file paired with their 1-based numbers. -/
def enumFrom (i : Nat) : List Chars → List (Nat × Chars)
  | [] => []
  | l :: ls => (i, l) :: enumFrom (i + 1) ls

/-- The per-match content entries one scanned file contributes. -/
def fileMatches (lineMatch : Chars → Bool) (f : WinFile) : List SearchMatch :=
  ((enumFrom 1 (posixLines f.text)).filter (fun e => lineMatch e.2)).map
    (fun e => ⟨f.path, e.1, (rstripChars e.2 ['\r', '\n']).take 500⟩)

/-- Number of matching lines in one scanned file. -/
def fileHitCount (lineMatch : Chars → Bool) (f : WinFile) : Nat :=
  ((posixLines f.text).filter lineMatch).length

/-- Sort paths lexicographically (Python `sorted` over the hit set; walked
    paths are distinct, so sorting the list models sorting the set). -/
def sortPaths (ps : List String) : List String :=
  ps.mergeSort (fun a b => a ≤ b)

/-- The files a content search scans: the walked list, filtered by the file
    glob when one is given. -/
def scanOf (files : List WinFile) (fnmatchFn : String → String → Bool)
    (fileGlob : Option String) : List WinFile :=
  match fileGlob with
  | some g => files.filter (fun f => fnmatchFn f.name g)
  | none => files

/-- Embedding of the content target of `_search_windows`: scan the walked
    files (optionally filtered by the file glob), collect matching lines
    through the compiled regex's per-line search (the `lineMatch` oracle),
    and render per the output mode with `offset`/`limit` applied after the
    total is known. -/
def searchWindowsContent (files : List WinFile)
    (fnmatchFn : String → String → Bool) (fileGlob : Option String)
    (lineMatch : Chars → Bool) (limit offset : Nat) (output_mode : String) :
    SearchResult :=
  let scan : List WinFile := scanOf files fnmatchFn fileGlob
  let hits := scan.filter (fun f => fileHitCount lineMatch f ≠ 0)
  if output_mode = "files_only" then
    let allFiles := sortPaths (hits.map (·.path))
    let total := allFiles.length
    { files := (allFiles.drop offset).take limit,
      total_count := total,
      truncated := decide (total > offset + limit) }
  else if output_mode = "count" then
    let counts := hits.map (fun f => (f.path, fileHitCount lineMatch f))
    { counts := counts, total_count := (counts.map (·.2)).sum }
  else
    let contentMatches := (scan.map (fileMatches lineMatch)).flatten
    let total := contentMatches.length
    { matchList := (contentMatches.drop offset).take limit,
      total_count := total,
      truncated := decide (total > offset + limit) }

/-- Embedding of `_search_files`, the POSIX shell file search: the
    `find -printf | sort -rn | tail -n +(offset+1) | head -n limit` pipeline
    is modelled by its output — the mtime-sorted full match list, offset
    dropped and limit taken (the timestamp-column parsing is elided).  The
    result reports `total_count = len(files)` over the already-sliced page. -/
def searchFilesPosix (allSorted : List String) (limit offset : Nat) :
    SearchResult :=
  let page := (allSorted.drop offset).take limit
  { files := page, total_count := page.length }

/-- Recover the text of a numbered read: drop each line's number column
    (everything up to and including the first bar). -/
def stripLineNumbers (c : Chars) : Chars :=
  joinNl ((splitNl c).map (fun l => (l.dropWhile (fun ch => ch ≠ '|')).drop 1))

/-- Text content of the image file used to exhibit the read divergence. -/
def pngText : Chars := "RAWPNGBYTES".data

/-- Diff and lint oracles used by the C10 witness. -/
def trivialOracles : FacadeOracles :=
  ⟨fun _ _ _ => [], fun _ => ⟨"ok".data, []⟩⟩

/-- Basic lemmas about the utilities. -/
theorem dropWhile_length_le {α : Type} (p : α → Bool) (l : List α) :
    (l.dropWhile p).length ≤ l.length := by
  induction l with
  | nil => simp [List.dropWhile]
  | cons a as ih =>
    simp only [List.dropWhile]
    cases p a <;> simp <;> omega

theorem isPre_self_append (l t : Chars) : isPre l (l ++ t) = true := by
  induction l with
  | nil => simp [isPre]
  | cons a as ih => simp [isPre, ih]

theorem isPre_append_true (a b p : Chars) (h : isPre a b = true) :
    isPre a (b ++ p) = true := by
  induction a generalizing b with
  | nil => simp [isPre]
  | cons x xs ih =>
    cases b with
    | nil => simp [isPre] at h
    | cons y ys =>
      simp only [isPre, List.cons_append, Bool.and_eq_true, decide_eq_true_eq]
        at h ⊢
      exact ⟨h.1, ih ys h.2⟩

theorem isPre_append_false (a b p : Chars) (h1 : isPre a b = false)
    (h2 : isPre b a = false) : isPre a (b ++ p) = false := by
  induction a generalizing b with
  | nil => simp [isPre] at h1
  | cons x xs ih =>
    cases b with
    | nil => simp [isPre] at h2
    | cons y ys =>
      simp only [isPre, List.cons_append, Bool.and_eq_false_iff] at h1 h2 ⊢
      by_cases hxy : x = y
      · subst hxy
        rcases h1 with h1 | h1
        · simp at h1
        · rcases h2 with h2 | h2
          · simp at h2
          · exact Or.inr (ih ys h1 h2)
      · exact Or.inl (by simpa using hxy)

theorem posixLines_nil_iff (s : Chars) : posixLines s = [] ↔ s = [] := by
  cases s with
  | nil => simp [posixLines]
  | cons c cs =>
    simp only [posixLines]
    constructor
    · intro h
      split at h
      · simp at h
      · split at h <;> simp_all
    · intro h
      simp at h

theorem joinAll_posixLines (s : Chars) : joinAll (posixLines s) = s := by
  induction s with
  | nil => simp [posixLines, joinAll]
  | cons c cs ih =>
    simp only [posixLines]
    by_cases hc : c = '\n'
    · subst hc
      simp [joinAll, ih]
    · simp only [if_neg hc]
      cases hpl : posixLines cs with
      | nil =>
        have : cs = [] := (posixLines_nil_iff cs).mp hpl
        subst this
        simp [joinAll]
      | cons l ls =>
        rw [hpl] at ih
        simp only [joinAll] at ih ⊢
        simp [List.cons_append, ih]

theorem runModeCalls_log (envs : List ShellEnv) (st : ModeLogState) :
    (runModeCalls envs st).log =
      st.log ++ modeLogRun st.lastLogged (envs.map get_local_shell_mode) := by
  induction envs generalizing st with
  | nil => simp [runModeCalls, modeLogRun]
  | cons e es ih =>
    simp only [runModeCalls, List.map_cons, modeLogRun, modeCall]
    by_cases h : st.lastLogged ≠ some (get_local_shell_mode e)
    · simp only [if_pos h, ih]
      simp
    · simp only [if_neg h, ih]

theorem modeLogRun_some_destutter (a : String) (l : List String) :
    List.destutter' (· ≠ ·) a l = a :: modeLogRun (some a) l := by
  induction l generalizing a with
  | nil => simp [List.destutter', modeLogRun]
  | cons b l ih =>
    by_cases h : a = b
    · subst h
      simp [List.destutter', modeLogRun, ih]
    · simp [List.destutter', modeLogRun, h, Ne.symm h, ih]

theorem modeLogRun_none_destutter (l : List String) :
    modeLogRun none l = l.destutter (· ≠ ·) := by
  cases l with
  | nil => simp [modeLogRun, List.destutter]
  | cons m ms =>
    simp [modeLogRun, List.destutter, modeLogRun_some_destutter]

/-! Stepping lemmas for `parseLoop`, one per line shape, used to run the
parser over documents with abstract operand paths. -/

theorem parseLoop_nil (pend : Option Pending) (acc : List PatchOperation) :
    parseLoop [] pend acc = (acc ++ flushPending pend, none) := rfl

theorem parseLoop_beginL (ls : List Chars) (pend : Option Pending)
    (acc : List PatchOperation) :
    parseLoop (beginMark :: ls) pend acc = parseLoop ls pend acc := by
  have h0 : beginMark ≠ [] := by decide
  have h1 : isPre beginMark beginMark = true := by decide
  simp [parseLoop, h0, h1]

theorem parseLoop_endL (ls : List Chars) (pend : Option Pending)
    (acc : List PatchOperation) :
    parseLoop (endMark :: ls) pend acc = parseLoop ls pend acc := by
  have h0 : endMark ≠ [] := by decide
  have h1 : isPre beginMark endMark = false := by decide
  have h2 : isPre endMark endMark = true := by decide
  simp [parseLoop, h0, h1, h2]

theorem parseLoop_updateL (p : Chars) (ls : List Chars) (pend : Option Pending)
    (acc : List PatchOperation) :
    parseLoop ((updateMark ++ p) :: ls) pend acc =
      parseLoop ls (some (.forUpdate p [] none)) (acc ++ flushPending pend) := by
  have h0 : updateMark ++ p ≠ [] := by simp [updateMark]
  have h1 : isPre beginMark (updateMark ++ p) = false :=
    isPre_append_false _ _ _ (by decide) (by decide)
  have h2 : isPre endMark (updateMark ++ p) = false :=
    isPre_append_false _ _ _ (by decide) (by decide)
  have h3 : isPre updateMark (updateMark ++ p) = true := isPre_self_append _ _
  have h4 : (updateMark ++ p).drop updateMark.length = p := List.drop_left _ _
  simp [parseLoop, h0, h1, h2, h3, h4]

theorem parseLoop_addL (p : Chars) (ls : List Chars) (pend : Option Pending)
    (acc : List PatchOperation) :
    parseLoop ((addMark ++ p) :: ls) pend acc =
      parseLoop ls (some (.forAdd p [])) (acc ++ flushPending pend) := by
  have h0 : addMark ++ p ≠ [] := by simp [addMark]
  have h1 : isPre beginMark (addMark ++ p) = false :=
    isPre_append_false _ _ _ (by decide) (by decide)
  have h2 : isPre endMark (addMark ++ p) = false :=
    isPre_append_false _ _ _ (by decide) (by decide)
  have h3 : isPre updateMark (addMark ++ p) = false :=
    isPre_append_false _ _ _ (by decide) (by decide)
  have h4 : isPre addMark (addMark ++ p) = true := isPre_self_append _ _
  have h5 : (addMark ++ p).drop addMark.length = p := List.drop_left _ _
  simp [parseLoop, h0, h1, h2, h3, h4, h5]

theorem parseLoop_deleteL (p : Chars) (ls : List Chars) (pend : Option Pending)
    (acc : List PatchOperation) :
    parseLoop ((deleteMark ++ p) :: ls) pend acc =
      parseLoop ls none
        (acc ++ flushPending pend ++ [⟨.delete, p, none, []⟩]) := by
  have h0 : deleteMark ++ p ≠ [] := by simp [deleteMark]
  have h1 : isPre beginMark (deleteMark ++ p) = false :=
    isPre_append_false _ _ _ (by decide) (by decide)
  have h2 : isPre endMark (deleteMark ++ p) = false :=
    isPre_append_false _ _ _ (by decide) (by decide)
  have h3 : isPre updateMark (deleteMark ++ p) = false :=
    isPre_append_false _ _ _ (by decide) (by decide)
  have h4 : isPre addMark (deleteMark ++ p) = false :=
    isPre_append_false _ _ _ (by decide) (by decide)
  have h5 : isPre deleteMark (deleteMark ++ p) = true := isPre_self_append _ _
  have h6 : (deleteMark ++ p).drop deleteMark.length = p := List.drop_left _ _
  simp [parseLoop, h0, h1, h2, h3, h4, h5, h6]

theorem parseLoop_tagSpaceFirst (rest : Chars) (p : Chars) (done : List Hunk)
    (ls : List Chars) (acc : List PatchOperation) :
    parseLoop ((' ' :: rest) :: ls) (some (.forUpdate p done none)) acc =
      parseLoop ls (some (.forUpdate p done (some ⟨[], [⟨' ', rest⟩]⟩))) acc := by
  simp [parseLoop, isPre, beginMark, endMark, updateMark, addMark, deleteMark,
    moveMark, starsMark, atsMark]

theorem parseLoop_tagMinusMore (rest : Chars) (p : Chars) (done : List Hunk)
    (h : Hunk) (ls : List Chars) (acc : List PatchOperation) :
    parseLoop (('-' :: rest) :: ls) (some (.forUpdate p done (some h))) acc =
      parseLoop ls
        (some (.forUpdate p done
          (some ⟨h.context_hint, h.lines ++ [⟨'-', rest⟩]⟩))) acc := by
  simp [parseLoop, isPre, beginMark, endMark, updateMark, addMark, deleteMark,
    moveMark, starsMark, atsMark]

theorem parseLoop_tagPlusMore (rest : Chars) (p : Chars) (done : List Hunk)
    (h : Hunk) (ls : List Chars) (acc : List PatchOperation) :
    parseLoop (('+' :: rest) :: ls) (some (.forUpdate p done (some h))) acc =
      parseLoop ls
        (some (.forUpdate p done
          (some ⟨h.context_hint, h.lines ++ [⟨'+', rest⟩]⟩))) acc := by
  simp [parseLoop, isPre, beginMark, endMark, updateMark, addMark, deleteMark,
    moveMark, starsMark, atsMark]

theorem parseLoop_addPlus (rest : Chars) (p : Chars) (hls : List HunkLine)
    (ls : List Chars) (acc : List PatchOperation) :
    parseLoop (('+' :: rest) :: ls) (some (.forAdd p hls)) acc =
      parseLoop ls (some (.forAdd p (hls ++ [⟨'+', rest⟩]))) acc := by
  simp [parseLoop, isPre, beginMark, endMark, updateMark, addMark, deleteMark,
    moveMark, starsMark, atsMark]

/-! Lemmas relating line splitting, joining and numbering, used for the
write-then-read round trip. -/

theorem splitNl_ne_nil (s : Chars) : splitNl s ≠ [] := by
  cases s with
  | nil => simp [splitNl]
  | cons c cs =>
    simp only [splitNl]
    split
    · simp
    · split <;> simp

theorem splitNl_no_nl (s : Chars) : ∀ l ∈ splitNl s, '\n' ∉ l := by
  induction s with
  | nil => simp [splitNl]
  | cons c cs ih =>
    intro l hl
    simp only [splitNl] at hl
    by_cases hc : c = '\n'
    · rw [if_pos hc] at hl
      rcases List.mem_cons.mp hl with hl | hl
      · simp [hl]
      · exact ih l hl
    · rw [if_neg hc] at hl
      cases hsp : splitNl cs with
      | nil => exact absurd hsp (splitNl_ne_nil cs)
      | cons m ms =>
        rw [hsp] at hl
        rcases List.mem_cons.mp hl with hl | hl
        · subst hl
          intro hmem
          rcases List.mem_cons.mp hmem with h | h
          · exact hc h.symm
          · exact ih m (by rw [hsp]; exact List.mem_cons_self m ms) h
        · exact ih l (by rw [hsp]; exact List.mem_cons_of_mem m hl)

theorem joinNl_splitNl (s : Chars) : joinNl (splitNl s) = s := by
  induction s with
  | nil => simp [splitNl, joinNl]
  | cons c cs ih =>
    simp only [splitNl]
    by_cases hc : c = '\n'
    · subst hc
      rw [if_pos rfl]
      cases hsp : splitNl cs with
      | nil => exact absurd hsp (splitNl_ne_nil cs)
      | cons m ms =>
        rw [hsp] at ih
        simp [joinNl, ih]
    · rw [if_neg hc]
      cases hsp : splitNl cs with
      | nil => exact absurd hsp (splitNl_ne_nil cs)
      | cons m ms =>
        rw [hsp] at ih
        cases ms with
        | nil => simp_all [joinNl]
        | cons m2 ms2 => simp_all [joinNl]

theorem splitNl_no_nl_id (p : Chars) (hp : '\n' ∉ p) : splitNl p = [p] := by
  induction p with
  | nil => simp [splitNl]
  | cons c cz ih =>
    have hc : c ≠ '\n' := fun h => hp (by simp [h])
    have hz : '\n' ∉ cz := fun h => hp (by simp [h])
    simp only [splitNl, if_neg hc, ih hz]

theorem splitNl_append_no_nl (a s : Chars) (ha : '\n' ∉ a) :
    splitNl (a ++ s) =
      (a ++ (splitNl s).headI) :: (splitNl s).tail := by
  induction a with
  | nil =>
    cases hsp : splitNl s with
    | nil => exact absurd hsp (splitNl_ne_nil s)
    | cons m ms => simp [hsp]
  | cons c cz ih =>
    have hc : c ≠ '\n' := fun h => ha (by simp [h])
    have hz : '\n' ∉ cz := fun h => ha (by simp [h])
    simp only [List.cons_append, splitNl, if_neg hc]
    rw [show cz.append s = cz ++ s from rfl, ih hz]

theorem splitNl_joinNl (parts : List Chars) (hne : parts ≠ [])
    (hnl : ∀ l ∈ parts, '\n' ∉ l) : splitNl (joinNl parts) = parts := by
  induction parts with
  | nil => exact absurd rfl hne
  | cons p ps ih =>
    cases ps with
    | nil => simpa [joinNl] using splitNl_no_nl_id p (hnl p (by simp))
    | cons q qs =>
      have hjoin : joinNl (p :: q :: qs) = p ++ '\n' :: joinNl (q :: qs) := rfl
      rw [hjoin, splitNl_append_no_nl p _ (hnl p (by simp))]
      have hstep : splitNl ('\n' :: joinNl (q :: qs)) =
          [] :: splitNl (joinNl (q :: qs)) := by
        simp [splitNl]
      rw [hstep, ih (by simp) (fun l hl => hnl l (by simp [hl]))]
      simp

theorem countNl_le_posixLines (s : Chars) :
    s.count '\n' ≤ (posixLines s).length := by
  induction s with
  | nil => simp [posixLines]
  | cons c cs ih =>
    by_cases hc : c = '\n'
    · subst hc
      have h1 : posixLines ('\n' :: cs) = ['\n'] :: posixLines cs := by
        simp [posixLines]
      have h2 : List.count '\n' ('\n' :: cs) = List.count '\n' cs + 1 := by
        simp [List.count_cons]
      rw [h1, h2, List.length_cons]
      omega
    · have h2 : List.count '\n' (c :: cs) = List.count '\n' cs := by
        simp [List.count_cons, hc]
      cases hpl : posixLines cs with
      | nil =>
        have hcs : cs = [] := (posixLines_nil_iff cs).mp hpl
        subst hcs
        simp_all [posixLines]
      | cons l ls =>
        have h1 : posixLines (c :: cs) = (c :: l) :: ls := by
          simp [posixLines, hc, hpl]
        rw [h1, h2, List.length_cons]
        rw [hpl] at ih
        simp only [List.length_cons] at ih
        omega

theorem digit_char_bounds (d : Nat) (hd : d < 10) :
    48 ≤ (Char.ofNat (48 + d)).toNat ∧ (Char.ofNat (48 + d)).toNat ≤ 57 := by
  interval_cases d <;> decide

theorem natDigitsAux_digit (fuel n : Nat) :
    ∀ c ∈ natDigitsAux fuel n, 48 ≤ c.toNat ∧ c.toNat ≤ 57 := by
  induction fuel generalizing n with
  | zero => simp [natDigitsAux]
  | succ f ih =>
    intro c hc
    simp only [natDigitsAux] at hc
    split at hc
    · simp only [List.mem_singleton] at hc
      subst hc
      rename_i h
      exact digit_char_bounds n h
    · rcases List.mem_append.mp hc with h | h
      · exact ih _ c h
      · simp only [List.mem_singleton] at h
        subst h
        exact digit_char_bounds (n % 10) (Nat.mod_lt _ (by omega))

theorem pad6_chars (n : Nat) :
    ∀ c ∈ pad6 n, c = ' ' ∨ (48 ≤ c.toNat ∧ c.toNat ≤ 57) := by
  intro c hc
  rcases List.mem_append.mp hc with h | h
  · exact Or.inl (List.eq_of_mem_replicate h)
  · exact Or.inr (natDigitsAux_digit (n + 1) n c h)

theorem pad6_no_bar (n : Nat) : ∀ c ∈ pad6 n, c ≠ '|' := by
  intro c hc
  rcases pad6_chars n c hc with h | h
  · simp [h]
  · intro hbar
    subst hbar
    simp at h

theorem pad6_no_nl (n : Nat) : ∀ c ∈ pad6 n, c ≠ '\n' := by
  intro c hc
  rcases pad6_chars n c hc with h | h
  · simp [h]
  · intro hnl
    subst hnl
    simp at h

theorem dropBar_append (a l : Chars) (ha : ∀ c ∈ a, c ≠ '|') :
    ((a ++ '|' :: l).dropWhile (fun ch => ch ≠ '|')).drop 1 = l := by
  induction a with
  | nil => simp [List.dropWhile]
  | cons x xs ih =>
    have hx : (decide (x ≠ '|')) = true := by
      simp [ha x (by simp)]
    rw [List.cons_append, List.dropWhile_cons, hx]
    simpa using ih (fun c hc => ha c (by simp [hc]))

theorem numberLine_short (i : Nat) (l : Chars) (h : l.length ≤ MAX_LINE_LENGTH) :
    numberLine i l = pad6 i ++ '|' :: l := by
  simp [numberLine, Nat.not_lt.mpr h]

theorem numberFrom_ne_nil (i : Nat) (parts : List Chars) (h : parts ≠ []) :
    numberFrom i parts ≠ [] := by
  cases parts with
  | nil => exact absurd rfl h
  | cons p ps => simp [numberFrom]

theorem numberFrom_no_nl (i : Nat) (parts : List Chars)
    (hnl : ∀ l ∈ parts, '\n' ∉ l)
    (hlen : ∀ l ∈ parts, l.length ≤ MAX_LINE_LENGTH) :
    ∀ m ∈ numberFrom i parts, '\n' ∉ m := by
  induction parts generalizing i with
  | nil => simp [numberFrom]
  | cons p ps ih =>
    intro m hm
    simp only [numberFrom] at hm
    rcases List.mem_cons.mp hm with hm | hm
    · subst hm
      rw [numberLine_short i p (hlen p (by simp))]
      intro hmem
      rcases List.mem_append.mp hmem with h | h
      · exact pad6_no_nl i '\n' h rfl
      · rcases List.mem_cons.mp h with h | h
        · exact absurd h.symm (by decide)
        · exact hnl p (by simp) h
    · exact ih (i + 1) (fun l hl => hnl l (by simp [hl]))
        (fun l hl => hlen l (by simp [hl])) m hm

theorem strip_numberFrom (i : Nat) (parts : List Chars)
    (hlen : ∀ l ∈ parts, l.length ≤ MAX_LINE_LENGTH) :
    (numberFrom i parts).map
      (fun l => (l.dropWhile (fun ch => ch ≠ '|')).drop 1) = parts := by
  induction parts generalizing i with
  | nil => simp [numberFrom]
  | cons p ps ih =>
    simp only [numberFrom, List.map_cons]
    rw [numberLine_short i p (hlen p (by simp)),
      dropBar_append _ _ (pad6_no_bar i),
      ih (i + 1) (fun l hl => hlen l (by simp [hl]))]

theorem strip_addLineNumbers (content : Chars) (start : Nat)
    (hlen : ∀ l ∈ splitNl content, l.length ≤ MAX_LINE_LENGTH) :
    stripLineNumbers (addLineNumbers content start) = content := by
  unfold stripLineNumbers addLineNumbers
  rw [splitNl_joinNl _ (numberFrom_ne_nil start _ (splitNl_ne_nil content))
      (numberFrom_no_nl start _ (splitNl_no_nl content) hlen),
    strip_numberFrom start _ hlen]
  exact joinNl_splitNl content

theorem fsLookup_fsSet (fs : Fs) (p : String) (c : Chars) :
    fsLookup (fsSet fs p c) p = some c := by
  simp [fsLookup, fsSet, List.find?]

theorem expandPathPosix_id (home p : String)
    (h : isPre "~".data p.data = false) :
    expandPathPosix home p = p := by
  simp [expandPathPosix, h]

theorem normOv_wsl : normalizeOv ['w', 's', 'l'] = ['w', 's', 'l'] := by decide

theorem normOv_powershell :
    normalizeOv ['p', 'o', 'w', 'e', 'r', 's', 'h', 'e', 'l', 'l'] =
      ['p', 'o', 'w', 'e', 'r', 's', 'h', 'e', 'l', 'l'] := by decide

theorem normOv_pwsh :
    normalizeOv ['p', 'w', 's', 'h'] = ['p', 'w', 's', 'h'] := by decide

theorem normOv_cmd :
    normalizeOv ['c', 'm', 'd'] = ['c', 'm', 'd'] := by decide

theorem normOv_cmdexe :
    normalizeOv ['c', 'm', 'd', '.', 'e', 'x', 'e'] =
      ['c', 'm', 'd', '.', 'e', 'x', 'e'] := by decide

theorem normOv_auto :
    normalizeOv ['a', 'u', 't', 'o'] = ['a', 'u', 't', 'o'] := by decide

/-- C2: on a non-Windows host the selector always answers `posix`; on Windows
    each documented override value resolves through the documented fallback
    chain (`wsl` falls back to `powershell` then `cmd`, `powershell`/`pwsh`
    fall back to `cmd`, `cmd`/`cmd.exe` are unconditional, `auto` prefers
    `wsl`, then `powershell`, then `cmd`); and a selector call's result
    depends only on the environment it reads at call time, so a changed
    override value is reflected on the very next call regardless of the
    retained logging state. -/
theorem claim_C2 :
    (∀ ov wsl ps, get_local_shell_mode ⟨false, ov, wsl, ps⟩ = "posix") ∧
    (∀ wsl ps,
      get_local_shell_mode ⟨true, "wsl", wsl, ps⟩ =
        if wsl then "wsl" else if ps ≠ "" then "powershell" else "cmd") ∧
    (∀ wsl ps,
      get_local_shell_mode ⟨true, "powershell", wsl, ps⟩ =
        if ps ≠ "" then "powershell" else "cmd") ∧
    (∀ wsl ps,
      get_local_shell_mode ⟨true, "pwsh", wsl, ps⟩ =
        if ps ≠ "" then "powershell" else "cmd") ∧
    (∀ wsl ps, get_local_shell_mode ⟨true, "cmd", wsl, ps⟩ = "cmd") ∧
    (∀ wsl ps, get_local_shell_mode ⟨true, "cmd.exe", wsl, ps⟩ = "cmd") ∧
    (∀ wsl ps,
      get_local_shell_mode ⟨true, "auto", wsl, ps⟩ =
        if wsl then "wsl" else if ps ≠ "" then "powershell" else "cmd") ∧
    (∀ e₁ e₂ st, (modeCall e₂ (modeCall e₁ st).2).1 = get_local_shell_mode e₂) := by
  refine ⟨?_, ?_, ?_, ?_, ?_, ?_, ?_, ?_⟩
  · intro ov wsl ps
    simp [get_local_shell_mode]
  · intro wsl ps
    simp [get_local_shell_mode, normOv_wsl]
  · intro wsl ps
    have h1 : (['p', 'o', 'w', 'e', 'r', 's', 'h', 'e', 'l', 'l'] : Chars) ≠
        ['w', 's', 'l'] := by decide
    simp [get_local_shell_mode, normOv_powershell, h1]
  · intro wsl ps
    have h1 : (['p', 'w', 's', 'h'] : Chars) ≠ ['w', 's', 'l'] := by decide
    simp [get_local_shell_mode, normOv_pwsh, h1]
  · intro wsl ps
    have h1 : (['c', 'm', 'd'] : Chars) ≠ ['w', 's', 'l'] := by decide
    have h2 : (['c', 'm', 'd'] : Chars) ≠
        ['p', 'o', 'w', 'e', 'r', 's', 'h', 'e', 'l', 'l'] := by decide
    have h3 : (['c', 'm', 'd'] : Chars) ≠ ['p', 'w', 's', 'h'] := by decide
    simp [get_local_shell_mode, normOv_cmd, h1, h2, h3]
  · intro wsl ps
    have h1 : (['c', 'm', 'd', '.', 'e', 'x', 'e'] : Chars) ≠
        ['w', 's', 'l'] := by decide
    have h2 : (['c', 'm', 'd', '.', 'e', 'x', 'e'] : Chars) ≠
        ['p', 'o', 'w', 'e', 'r', 's', 'h', 'e', 'l', 'l'] := by decide
    have h3 : (['c', 'm', 'd', '.', 'e', 'x', 'e'] : Chars) ≠
        ['p', 'w', 's', 'h'] := by decide
    simp [get_local_shell_mode, normOv_cmdexe, h1, h2, h3]
  · intro wsl ps
    have h1 : (['a', 'u', 't', 'o'] : Chars) ≠ ['w', 's', 'l'] := by decide
    have h2 : (['a', 'u', 't', 'o'] : Chars) ≠
        ['p', 'o', 'w', 'e', 'r', 's', 'h', 'e', 'l', 'l'] := by decide
    have h3 : (['a', 'u', 't', 'o'] : Chars) ≠ ['p', 'w', 's', 'h'] := by decide
    have h4 : (['a', 'u', 't', 'o'] : Chars) ≠ ['c', 'm', 'd'] := by decide
    have h5 : (['a', 'u', 't', 'o'] : Chars) ≠
        ['c', 'm', 'd', '.', 'e', 'x', 'e'] := by decide
    simp [get_local_shell_mode, normOv_auto, h1, h2, h3, h4, h5]
  · intro e₁ e₂ st
    simp only [modeCall, apply_ite (Prod.fst (α := String) (β := ModeLogState)),
      ite_self]

/-- C5: the builder never combines a true run-through-shell flag with an
    explicit argument vector — the shell flag is set exactly when the
    arguments are a single command string (the posix mode). -/
theorem claim_C5 (env : BuildEnv) (command : String) (workDir : Option String) :
    (build_local_subprocess_invocation env command workDir).2.1.shell = true ↔
      ∃ s, (build_local_subprocess_invocation env command workDir).1 =
        PopenArgs.single s := by
  unfold build_local_subprocess_invocation
  by_cases h1 : get_local_shell_mode env.shellEnv = "posix"
  · simp [h1]
  · by_cases h2 : get_local_shell_mode env.shellEnv = "wsl"
    · simp [h1, h2]
    · by_cases h3 : get_local_shell_mode env.shellEnv = "powershell" <;>
        simp [h1, h2, h3]

/-- C1 (amended): when the first pass to hit finds `n ≥ 2` occurrences,
    the call without `replace_all` fails with the ambiguity error whose text
    begins `Found <n> matches` and reports zero replacements with the content
    unchanged; the call with `replace_all` replaces every occurrence found by
    that pass (returning that pass's replace-all result and count `n`); and on
    the spec's example, where the replacement text cannot recreate the old
    string, the result indeed contains zero remaining occurrences.  (The
    original claim's unconditional zero-remaining-occurrences guarantee fails
    when the replacement text reintroduces `old`; see the counterexample.) -/
theorem claim_C1 (content old new : Chars) (p : MatchPass) (n : Nat)
    (hold : old ≠ []) (hne : old ≠ new)
    (hhit : firstHit content old = some (p, n)) (h2 : 2 ≤ n) :
    fuzzy_find_and_replace content old new false =
      (content, 0, some (foundMatchesErr n)) ∧
    isPre ("Found ".data ++ natDigits n ++ " matches".data)
      (foundMatchesErr n) = true ∧
    fuzzy_find_and_replace content old new true =
      (passReplace p content old new, n, none) ∧
    fuzzy_find_and_replace "aaa bbb aaa".data "aaa".data "ccc".data true =
      ("ccc bbb ccc".data, 2, none) ∧
    countOcc "ccc bbb ccc".data "aaa".data = 0 := by
  refine ⟨?_, ?_, ?_, by decide, by decide⟩
  · unfold fuzzy_find_and_replace
    rw [if_neg hold, if_neg hne, hhit]
    exact if_pos ⟨by omega, rfl⟩
  · exact isPre_self_append _ _
  · unfold fuzzy_find_and_replace
    rw [if_neg hold, if_neg hne, hhit]
    exact if_neg (by simp)

/-- Witness for C1 at the spec's own example: two occurrences without
    `replace_all` error with `Found 2 matches`. -/
theorem claim_C1_witness :
    fuzzy_find_and_replace "aaa bbb aaa".data "aaa".data "ccc".data false =
      ("aaa bbb aaa".data, 0, some (foundMatchesErr 2)) :=
  (claim_C1 "aaa bbb aaa".data "aaa".data "ccc".data MatchPass.exact 2
    (by decide) (by decide) (by decide) (by decide)).1

/-- Counterexample for C1 as stated: with `old = "x"`, `new = "xx"` on
    `"x x"`, `replace_all=true` replaces both occurrences yet the result
    `"xx xx"` still contains occurrences of `old`, so the claimed
    zero-remaining-occurrences guarantee is false. -/
theorem counterexample_C1 :
    fuzzy_find_and_replace "x x".data "x".data "xx".data true =
      ("xx xx".data, 2, none) ∧
    countOcc "xx xx".data "x".data ≠ 0 := by decide

/-- C4: a document holding `Add File`, `Delete File` and `Update File`
    operations in sequence (arbitrary operand paths) parses into exactly
    those three operations, in document order, with the correct kinds; a
    `Move File: a -> b` line parses with `file_path = "a"` and
    `new_path = "b"`; the empty document parses to an empty operation list
    with no error; and a document missing the leading `*** Begin Patch`
    marker still parses successfully. -/
theorem claim_C4 :
    (∀ p1 p2 p3, parse_v4a_lines (multiOpLines p1 p2 p3) =
      ([⟨.add, p1, none, [⟨[], [⟨'+', "content_a".data⟩]⟩]⟩,
        ⟨.delete, p2, none, []⟩,
        ⟨.update, p3, none,
          [⟨[], [⟨' ', "keep".data⟩, ⟨'-', "remove".data⟩,
                 ⟨'+', "add".data⟩]⟩]⟩], none)) ∧
    parse_v4a_patch "*** Begin Patch\n*** Move File: a -> b\n*** End Patch" =
      ([⟨.move, "a".data, some "b".data, []⟩], none) ∧
    parse_v4a_patch "" = ([], none) ∧
    parse_v4a_patch "*** Update File: f.py\n line1\n-old\n+new\n*** End Patch" =
      ([⟨.update, "f.py".data, none,
          [⟨[], [⟨' ', "line1".data⟩, ⟨'-', "old".data⟩,
                 ⟨'+', "new".data⟩]⟩]⟩], none) := by
  refine ⟨?_, by decide, by decide, by decide⟩
  intro p1 p2 p3
  show parseLoop _ none [] = _
  rw [multiOpLines, parseLoop_beginL, parseLoop_addL, parseLoop_addPlus,
    parseLoop_deleteL, parseLoop_updateL, parseLoop_tagSpaceFirst,
    parseLoop_tagMinusMore, parseLoop_tagPlusMore, parseLoop_endL,
    parseLoop_nil]
  simp [flushPending, closeHunk]

theorem enumFrom_filter_length (lm : Chars → Bool) (i : Nat) (ls : List Chars) :
    ((enumFrom i ls).filter (fun e => lm e.2)).length =
      (ls.filter lm).length := by
  induction ls generalizing i with
  | nil => simp [enumFrom]
  | cons l ls ih =>
    simp only [enumFrom, List.filter_cons]
    cases h : lm l <;> simp [h, ih (i + 1)]

theorem fileMatches_length (lm : Chars → Bool) (f : WinFile) :
    (fileMatches lm f).length = fileHitCount lm f := by
  unfold fileMatches fileHitCount
  rw [List.length_map, enumFrom_filter_length]

/-- C3 (amended): every list-returning search result is sliced to at most
    `limit` items.  On the Windows-native implementation `total_count` is the
    true pre-slice count: the number of name-matching files for the `files`
    target, the number of matching lines across the scanned files for
    content mode, and the number of files with at least one hit for
    files-only mode.  The POSIX shell file search instead reports
    `total_count` equal to the number of files on the already-sliced page,
    so it can under-report the true total (see the counterexample). -/
theorem claim_C3 :
    (∀ (files : List WinFile) (fn : String → String → Bool) (pattern : String)
        (limit offset : Nat),
      (searchWindowsFiles files fn pattern limit offset).files.length ≤ limit ∧
      (searchWindowsFiles files fn pattern limit offset).total_count =
        (files.filter (fun f => fn f.name
          (if hasGlobChar pattern then pattern
           else "*" ++ pattern ++ "*"))).length) ∧
    (∀ (files : List WinFile) (fn : String → String → Bool)
        (g : Option String) (lm : Chars → Bool) (limit offset : Nat),
      (searchWindowsContent files fn g lm limit offset
          "content").matchList.length ≤ limit ∧
      (searchWindowsContent files fn g lm limit offset "content").total_count =
        ((scanOf files fn g).map (fileHitCount lm)).sum) ∧
    (∀ (files : List WinFile) (fn : String → String → Bool)
        (g : Option String) (lm : Chars → Bool) (limit offset : Nat),
      (searchWindowsContent files fn g lm limit offset
          "files_only").files.length ≤ limit ∧
      (searchWindowsContent files fn g lm limit offset
          "files_only").total_count =
        ((scanOf files fn g).filter
          (fun f => fileHitCount lm f ≠ 0)).length) ∧
    (∀ (allSorted : List String) (limit offset : Nat),
      (searchFilesPosix allSorted limit offset).files.length ≤ limit ∧
      (searchFilesPosix allSorted limit offset).total_count =
        (searchFilesPosix allSorted limit offset).files.length) := by
  refine ⟨?_, ?_, ?_, ?_⟩
  · intro files fn pattern limit offset
    constructor
    · simp [searchWindowsFiles, List.length_take_le]
    · simp [searchWindowsFiles, List.length_mergeSort]
  · intro files fn g lm limit offset
    have hmode : ("content" : String) ≠ "files_only" := by decide
    have hmode2 : ("content" : String) ≠ "count" := by decide
    constructor
    · simp [searchWindowsContent, hmode, hmode2, List.length_take_le]
    · simp only [searchWindowsContent, if_neg hmode, if_neg hmode2]
      simp only [List.length_flatten, List.map_map]
      refine congrArg List.sum (List.map_congr_left ?_)
      intro f _
      simp [Function.comp, fileMatches_length]
  · intro files fn g lm limit offset
    constructor
    · simp [searchWindowsContent, List.length_take_le]
    · simp [searchWindowsContent, sortPaths, List.length_mergeSort]
  · intro allSorted limit offset
    constructor
    · simp [searchFilesPosix, List.length_take_le]
    · simp [searchFilesPosix]

/-- Counterexample for C3 as stated: on the POSIX shell file search, two
    matching files with `limit=1, offset=0` yield `total_count = 1`, not the
    true unfiltered match count 2. -/
theorem counterexample_C3 :
    (searchFilesPosix ["b", "a"] 1 0).files = ["b"] ∧
    (searchFilesPosix ["b", "a"] 1 0).total_count = 1 ∧
    (["b", "a"] : List String).length = 2 := by decide

/-- C6 evaluation at the failing input: the shell-dispatch path returns an
    image-flagged result carrying the vision redirect hint and no inline
    content, while the Windows-native path (which has no image or binary
    check) inlines the file text with no image flag, no hint and no error —
    the two implementation paths disagree on image files. -/
theorem claim_C6 :
    (read_file [("photo.png", pngText)] "/" "photo.png" 1 500).is_image =
      true ∧
    (read_file [("photo.png", pngText)] "/" "photo.png" 1 500).hint =
      some imageRedirectHint ∧
    (read_file [("photo.png", pngText)] "/" "photo.png" 1 500).content = [] ∧
    (read_file_windows ⟨[("photo.png", pngText)], [], id⟩ "photo.png" 1
        500).is_image = false ∧
    (read_file_windows ⟨[("photo.png", pngText)], [], id⟩ "photo.png" 1
        500).error = none ∧
    (read_file_windows ⟨[("photo.png", pngText)], [], id⟩ "photo.png" 1
        500).hint = none ∧
    (read_file_windows ⟨[("photo.png", pngText)], [], id⟩ "photo.png" 1
        500).content = addLineNumbers pngText 1 := by decide

/-- C10: whenever the fuzzy-match step reports an error or zero matches
    (missing file included), `patch_replace` returns a result with a
    populated error field and leaves the file system untouched — the write
    step is never reached. -/
theorem claim_C10 (oc : FacadeOracles) (fs : Fs) (home path : String)
    (old new : Chars) (ra : Bool)
    (hcond : fsLookup fs (expandPathPosix home path) = none ∨
      ∃ content, fsLookup fs (expandPathPosix home path) = some content ∧
        ((fuzzy_find_and_replace content old new ra).2.2 ≠ none ∨
         (fuzzy_find_and_replace content old new ra).2.1 = 0)) :
    (patch_replace oc fs home path old new ra).1.error ≠ none ∧
    (patch_replace oc fs home path old new ra).2 = fs := by
  rcases hcond with hnone | ⟨content, hsome, hfz⟩
  · simp [patch_replace, hnone]
  · rcases hfz with herr | hzero
    · cases he : (fuzzy_find_and_replace content old new ra).2.2 with
      | none => exact absurd he herr
      | some e => simp [patch_replace, hsome, he]
    · cases he : (fuzzy_find_and_replace content old new ra).2.2 with
      | some e => simp [patch_replace, hsome, he]
      | none => simp [patch_replace, hsome, he, hzero]

/-- Witness for C10: a no-match replace on an existing file errors and
    leaves the file system unchanged. -/
theorem claim_C10_witness :
    (patch_replace trivialOracles [("f.txt", "hello world".data)] "/"
      "f.txt" "xyz".data "abc".data false).1.error ≠ none ∧
    (patch_replace trivialOracles [("f.txt", "hello world".data)] "/"
      "f.txt" "xyz".data "abc".data false).2 =
      [("f.txt", "hello world".data)] :=
  claim_C10 trivialOracles [("f.txt", "hello world".data)] "/" "f.txt"
    "xyz".data "abc".data false
    (Or.inr ⟨"hello world".data, by decide, Or.inl (by decide)⟩)

/-- C7: writing a text within the pagination limits (its line count within
    the requested and the hard cap, every line within the per-line cap) and
    reading it back through the shell-dispatch path succeeds, returns the
    text with each line annotated by its line number, and stripping the
    annotation column recovers the written text byte for byte. -/
theorem claim_C7 (fs : Fs) (home path : String) (content : Chars) (limit : Nat)
    (hpath : isPre "~".data path.data = false)
    (himg : isImagePath path = false)
    (hbin : isLikelyBinary path (content.take 1000) = false)
    (hlines : (posixLines content).length ≤ min limit MAX_LINES)
    (hlen : ∀ l ∈ splitNl content, l.length ≤ MAX_LINE_LENGTH) :
    (read_file (write_file fs home path content).2 home path 1 limit).error =
      none ∧
    (read_file (write_file fs home path content).2 home path 1 limit).content =
      addLineNumbers content 1 ∧
    stripLineNumbers
      ((read_file (write_file fs home path content).2 home path 1
        limit).content) = content := by
  have hexp := expandPathPosix_id home path hpath
  have hw : (write_file fs home path content).2 = fsSet fs path content := by
    simp [write_file, hexp]
  have he : 1 + min limit MAX_LINES - 1 = min limit MAX_LINES := by omega
  have htake : (posixLines content).take (min limit MAX_LINES) =
      posixLines content := List.take_of_length_le hlines
  have hcontent :
      (read_file (write_file fs home path content).2 home path 1 limit).content
        = addLineNumbers content 1 := by
    rw [hw]
    simp only [read_file, hexp, fsLookup_fsSet, himg, hbin, Bool.false_eq_true,
      if_false, he]
    simp [htake, joinAll_posixLines]
  have herror :
      (read_file (write_file fs home path content).2 home path 1 limit).error
        = none := by
    rw [hw]
    simp only [read_file, hexp, fsLookup_fsSet, himg, hbin, Bool.false_eq_true,
      if_false, he]
  exact ⟨herror, hcontent, by rw [hcontent]; exact strip_addLineNumbers content 1 hlen⟩

/-- Witness for C7 at a concrete two-line file. -/
theorem claim_C7_witness :
    (read_file (write_file [] "/root" "notes.txt" "alpha\nbeta".data).2 "/root"
      "notes.txt" 1 500).error = none ∧
    (read_file (write_file [] "/root" "notes.txt" "alpha\nbeta".data).2 "/root"
      "notes.txt" 1 500).content = addLineNumbers "alpha\nbeta".data 1 ∧
    stripLineNumbers
      ((read_file (write_file [] "/root" "notes.txt" "alpha\nbeta".data).2
        "/root" "notes.txt" 1 500).content) = "alpha\nbeta".data :=
  claim_C7 [] "/root" "notes.txt" "alpha\nbeta".data 500 (by decide) (by decide)
    (by decide) (by decide) (by decide)

/-- C8: a child that ignores the graceful termination signal is still dead
    after the bounded escalation (graceful signal to the tree, grace wait,
    forced kill), and the reported result carries exit status 130 with the
    interruption note appended to the captured output. -/
theorem claim_C8 (p : ProcTree) (out : String)
    (halive : p.alive = true) (hterm : p.ignoresTerm = true) :
    (interruptEscalation p out).1.alive = false ∧
    (interruptEscalation p out).2.returncode = 130 ∧
    (interruptEscalation p out).2.output = out ++ interruptNote ∧
    containsSub interruptNote.data "interrupted".data = true := by
  cases p with
  | mk a i =>
    simp only at halive hterm
    subst halive
    subst hterm
    refine ⟨?_, rfl, rfl, by decide⟩
    simp [interruptEscalation, terminate_process_tree]

/-- Witness for C8 at a concrete trapped process. -/
theorem claim_C8_witness :
    (interruptEscalation ⟨true, true⟩ "partial").1.alive = false ∧
    (interruptEscalation ⟨true, true⟩ "partial").2.returncode = 130 ∧
    (interruptEscalation ⟨true, true⟩ "partial").2.output =
      "partial" ++ interruptNote ∧
    containsSub interruptNote.data "interrupted".data = true :=
  claim_C8 ⟨true, true⟩ "partial" rfl rfl

/-- C9 (amended): the selector logs a mode decision exactly when it differs
    from the previously logged one — the log of any call sequence is the
    adjacent-deduplication (destutter) of the resulting mode sequence.
    Consecutive identical decisions are logged once, but a mode resolved to
    again after an intervening different mode is logged again. -/
theorem claim_C9 (envs : List ShellEnv) :
    (runModeCalls envs ⟨none, []⟩).log =
      (envs.map get_local_shell_mode).destutter (· ≠ ·) := by
  rw [runModeCalls_log]
  simp [modeLogRun_none_destutter]

/-- Counterexample for C9 as stated: three calls resolving to `wsl`, `cmd`,
    `wsl` produce two log lines for the mode `wsl`, not exactly one per
    distinct resulting mode. -/
theorem counterexample_C9 :
    (runModeCalls [⟨true, "wsl", true, ""⟩, ⟨true, "cmd", true, ""⟩,
        ⟨true, "wsl", true, ""⟩] ⟨none, []⟩).log = ["wsl", "cmd", "wsl"] ∧
    ((runModeCalls [⟨true, "wsl", true, ""⟩, ⟨true, "cmd", true, ""⟩,
        ⟨true, "wsl", true, ""⟩] ⟨none, []⟩).log.count "wsl") = 2 := by decide

end Hermes

